import Mathlib

/-! wlr-vcgt-loader: a verification development over `src/main.c`.

The calibration values are `cmsFloat32Number`s in the source.  A finite
float is the rational it denotes, and every floating-point operation of the
source is the exact operation followed by the rounding the source performs:

* the sampling input `(float)i / (float)(gamma_size - 1)` is rounded to
  binary32 three times, at the two conversions and at the division
  (`binary32_round`, round to nearest, ties to even);
* the product `(double)v * 0xFFFF` of `float_to_u16` is exact in double
  precision for a finite 32-bit float `v` (24 + 16 significant bits), so no
  rounding occurs before `lround`.

NaN and the infinities have no rational counterpart and are outside the
model.  Machine integers are naturals/integers with explicit reduction modulo
the width of the C type (`uint32_t` : 2^32, `size_t` : 2^64, `long` : 64 bit).
-/

namespace WlrVcgt

/-! ## C integer widths -/

/-- Number of values of a `uint32_t`. -/
def UINT32_MOD : Nat := 4294967296

/-- Number of values of a 64-bit `size_t`. -/
def SIZE_MOD : Nat := 18446744073709551616

/-- Least value of a 64-bit `long`. -/
def LONG_MIN : Int := -9223372036854775808

/-- Greatest value of a 64-bit `long`. -/
def LONG_MAX : Int := 9223372036854775807

/-! ## `float_to_u16` (main.c, lines 104-109) -/

/-- The mathematical value `lround` computes: nearest integer, halfway cases
away from zero (C11 7.12.9.7), written the way libm does it: on the
magnitude for a negative argument. -/
def lround_value (x : ℚ) : Int :=
  if 0 ≤ x then ⌊x + 1 / 2⌋ else -⌊-x + 1 / 2⌋

/-- C `lround` with a 64-bit `long` result.  When the rounded value does not
fit in a `long` the C standard leaves the result unspecified; `oor` is what
the C library returns in that case. -/
def lround (oor : ℚ → Int) (x : ℚ) : Int :=
  if LONG_MIN ≤ lround_value x ∧ lround_value x ≤ LONG_MAX then lround_value x
  else oor x

/-- Source `float_to_u16`:
`long val = lround((double)v * 0xFFFF); if (val < 0) val = 0;`
`if (val > 0xFFFF) val = 0xFFFF; return (uint16_t)val;` -/
def float_to_u16 (oor : ℚ → Int) (v : ℚ) : Nat :=
  let val := lround oor (v * 65535)
  let val := if val < 0 then 0 else val
  let val := if val > 65535 then 65535 else val
  (val % 65536).toNat

/-- The quantisation in the words of the specification: "multiply by 65535,
round half-away-from-zero, and clamp to [0, 65535]".  Rounding half away from
zero is sign times the floor of magnitude plus one half. -/
def spec_round_half_away (x : ℚ) : Int :=
  (if x < 0 then -1 else 1) * ⌊|x| + 1 / 2⌋

/-- Clamp of an integer to the unsigned 16-bit range. -/
def spec_clamp_u16 (z : Int) : Nat :=
  (max 0 (min 65535 z)).toNat

/-- Result of `calloc(n, sizeof(uint16_t))`: `NULL` or `n` zeroed entries. -/
def calloc (ok : Bool) (n : Nat) : Option (List Nat) :=
  if ok then some (List.replicate n 0) else none

/-- Nearest integer, ties to the even one: the rounding of a significand in
the IEEE 754 default mode. -/
def round_half_even (q : ℚ) : Int :=
  if q - ⌊q⌋ < 1 / 2 then ⌊q⌋
  else if 1 / 2 < q - ⌊q⌋ then ⌊q⌋ + 1
  else if ⌊q⌋ % 2 = 0 then ⌊q⌋ else ⌊q⌋ + 1

/-- The binary32 value nearest to `x`, ties to even: a multiple of
`2 ^ (e - 23)` where `e` is the binary exponent of `x`, not below -126 (24
significant bits, gradual underflow).  Overflow to infinity, from 2^128 on,
is not represented; the arguments in this program are at most 2^32. -/
def binary32_round (x : ℚ) : ℚ :=
  let e := max (Int.log 2 |x|) (-126)
  (round_half_even (x / (2 : ℚ) ^ (e - 23)) : ℚ) * (2 : ℚ) ^ (e - 23)

/-- Source line 164, `(cmsFloat32Number)i / (cmsFloat32Number)(gamma_size - 1)`:
the subtraction in `uint32_t`, both conversions and the quotient rounded to
binary32.  (At `gamma_size = 1` the source divides 0 by 0; `main` never
calls with a size below 2.) -/
def sampling_input (gamma_size i : Nat) : ℚ :=
  binary32_round
    (binary32_round (i : ℚ) /
      binary32_round (((gamma_size + UINT32_MOD - 1) % UINT32_MOD : Nat) : ℚ))

/-- The quantised sample of channel `c` at input index `i`: the loop's
`float_to_u16(cmsEvalToneCurveFloat(vcgt[c], in))`. -/
def sample_value (oor : ℚ → Int) (gamma_size : Nat) (vcgt : Fin 3 → ℚ → ℚ)
    (c : Fin 3) (i : Nat) : Nat :=
  float_to_u16 oor (vcgt c (sampling_input gamma_size i))

/-- One iteration of the sampling loop: with `r = table`, `g = table + g_off`
and `b = table + b_off`, store the three quantised samples of input `i`.
`vcgt c x` stands for `cmsEvalToneCurveFloat(vcgt[c], x)`.  Every store lies
inside the allocation (`gamma_loop_stores_in_bounds`), so `List.set` is the
C store. -/
def gamma_loop_body (oor : ℚ → Int) (gamma_size : Nat) (vcgt : Fin 3 → ℚ → ℚ)
    (g_off b_off : Nat) (table : List Nat) (i : Nat) : List Nat :=
  let x : ℚ := sampling_input gamma_size i
  let t1 := table.set i (float_to_u16 oor (vcgt 0 x))
  let t2 := t1.set (g_off + i) (float_to_u16 oor (vcgt 1 x))
  t2.set (b_off + i) (float_to_u16 oor (vcgt 2 x))

/-- Source `generate_gamma_table`.  `table_size` is computed in `size_t`,
the offset of `g` is `gamma_size` and the offset of `b` is the `uint32_t`
product `2 * gamma_size`.  The `for` loop runs its body for
`i = 0, ..., gamma_size - 1` in order; `none` is the `NULL` return. -/
def generate_gamma_table (oor : ℚ → Int) (calloc_ok : Bool) (gamma_size : Nat)
    (vcgt : Fin 3 → ℚ → ℚ) : Option (List Nat) :=
  let table_size := (gamma_size % SIZE_MOD * 3) % SIZE_MOD
  match calloc calloc_ok table_size with
  | none => none
  | some table =>
    let g_off := gamma_size
    let b_off := (2 * gamma_size) % UINT32_MOD
    some ((List.range gamma_size).foldl
      (gamma_loop_body oor gamma_size vcgt g_off b_off) table)

/-- Sample `i` of channel `c` (0 red, 1 green, 2 blue) of a table of `n`
samples per channel read in channel-major order: entry `c * n + i`. -/
def table_sample (t : List Nat) (n : Nat) (c : Fin 3) (i : Nat) : Option Nat :=
  t[c.val * n + i]?

/-- Outcomes of the system calls `apply_gamma` makes. -/
structure ApplySys where
  memfd_ok : Bool
  ftruncate_ok : Bool
  mmap_ok : Bool

/-- The `size_t` byte count `(size_t)state->gamma_size * 3 * sizeof(uint16_t)`. -/
def apply_gamma_table_size (gamma_size : Nat) : Nat :=
  ((gamma_size % SIZE_MOD * 3) % SIZE_MOD * 2) % SIZE_MOD

/-- The two bytes of a 16-bit entry in memory (low byte first, as on the
little-endian hosts the program targets). -/
def u16_bytes (v : Nat) : List Nat := [v % 256, v / 256 % 256]

/-- The table as the bytes `memcpy` reads. -/
def table_bytes : List Nat → List Nat
  | [] => []
  | v :: rest => u16_bytes v ++ table_bytes rest

/-- Source `apply_gamma`: the return value and, on success, the content of
the sealed region handed to `set_gamma` (`table_size` bytes copied from the
table). -/
def apply_gamma (sys : ApplySys) (gamma_size : Nat) (table : List Nat) :
    Int × Option (List Nat) :=
  let table_size := apply_gamma_table_size gamma_size
  if !sys.memfd_ok then (-1, none)
  else if !sys.ftruncate_ok then (-1, none)
  else if !sys.mmap_ok then (-1, none)
  else (0, some ((table_bytes table).take table_size))

/-! ## Protocol state (main.c, lines 23-44)

Pointers are natural numbers: an `output_context *` is the address of a
heap block, a `wl_output *` is the identity of a client-side proxy.  C
strings are the lists of their bytes before the terminating NUL. -/

/-- Source `struct icc_gamma_state`, the fields the event handlers and the
loop read or write (`display`, `registry`, `gamma_control` and `icc_path`
are only passed to library calls). -/
structure icc_gamma_state where
  output : Option Nat
  gamma_manager : Option Nat
  target_output_name : List Nat
  matched_ctx : Option Nat
  output_wl_name : Nat
  gamma_size : Nat
  output_matched : Bool
  gamma_size_received : Bool
  running : Bool
  failed : Bool
  deriving DecidableEq

/-- Source `struct output_context`; its `state` field always points at the
single `icc_gamma_state` of `main`. -/
structure output_context where
  wl_name : Nat
  matched : Bool
  deriving DecidableEq

/-- The program state the handlers act on: the `icc_gamma_state`, the
allocated `output_context` blocks by address, the live `wl_output` proxies
with their listener data, and the next unused address/proxy identity. -/
structure World where
  state : icc_gamma_state
  heap : Nat → Option output_context
  proxies : Nat → Option Nat
  next : Nat

/-- C `strcmp` on NUL-terminated strings given by their bytes: the difference
of the first pair of differing bytes, the terminator counting as 0. -/
def strcmp : List Nat → List Nat → Int
  | [], [] => 0
  | [], b :: _ => 0 - (b : Int)
  | a :: _, [] => (a : Int) - 0
  | a :: as, b :: bs => if a = b then strcmp as bs else (a : Int) - (b : Int)

/-- The bytes of an ASCII literal. -/
def c_str (s : String) : List Nat := s.toList.map Char.toNat

/-- The interface name of `wl_output_interface`. -/
def wl_output_interface_name : List Nat := c_str "wl_output"

/-- The interface name of `zwlr_gamma_control_manager_v1_interface`. -/
def zwlr_gamma_control_manager_v1_interface_name : List Nat :=
  c_str "zwlr_gamma_control_manager_v1"

/-! ## Event handlers (main.c, lines 175-297) -/

/-- Source `output_handle_done`: an unmatched context has its proxy released
(`wl_output_release`) and its block freed.  The handler is only ever called
with the address of an allocated context, see `dispatch_event`; on any other
address the model leaves the state as it is. -/
def output_handle_done (w : World) (data output : Nat) : World :=
  match w.heap data with
  | none => w
  | some ctx =>
    if !ctx.matched then
      { w with
        proxies := fun p => if p = output then none else w.proxies p
        heap := fun a => if a = data then none else w.heap a }
    else w

/-- Source `output_handle_name`: on `strcmp(name, target) == 0` the five
assignments of the source, otherwise nothing. -/
def output_handle_name (w : World) (data output : Nat) (name : List Nat) : World :=
  match w.heap data with
  | none => w
  | some ctx =>
    if strcmp name w.state.target_output_name = 0 then
      { w with
        state := { w.state with
          output := some output
          output_wl_name := ctx.wl_name
          output_matched := true
          matched_ctx := some data }
        heap := fun a => if a = data then some { ctx with matched := true } else w.heap a }
    else w

/-- Source `gamma_control_handle_gamma_size`. -/
def gamma_control_handle_gamma_size (s : icc_gamma_state) (size : Nat) : icc_gamma_state :=
  { s with gamma_size := size, gamma_size_received := true }

/-- Source `gamma_control_handle_failed`. -/
def gamma_control_handle_failed (s : icc_gamma_state) : icc_gamma_state :=
  { s with failed := true, running := false }

/-- Source `handle_global`; `calloc_ok` is whether the context allocation
succeeds. -/
def handle_global (w : World) (name : Nat) (interface : List Nat) (version : Nat)
    (calloc_ok : Bool) : World :=
  if strcmp interface wl_output_interface_name = 0 then
    let bind_ver := if version < 4 then version else 4
    if bind_ver < 4 then w
    else if !calloc_ok then w
    else
      { w with
        heap := fun a => if a = w.next then some { wl_name := name, matched := false }
          else w.heap a
        proxies := fun p => if p = w.next then some w.next else w.proxies p
        next := w.next + 1 }
  else if strcmp interface zwlr_gamma_control_manager_v1_interface_name = 0 then
    { w with state := { w.state with gamma_manager := some w.next }, next := w.next + 1 }
  else w

/-- Source `handle_global_remove`. -/
def handle_global_remove (s : icc_gamma_state) (name : Nat) : icc_gamma_state :=
  if s.output_matched && name == s.output_wl_name then { s with running := false } else s

/-- The protocol events the registered listeners receive. -/
inductive Event where
  | global (name : Nat) (interface : List Nat) (version : Nat) (calloc_ok : Bool)
  | global_remove (name : Nat)
  | output_geometry (output : Nat)
  | output_mode (output : Nat)
  | output_done (output : Nat)
  | output_scale (output : Nat)
  | output_name (output : Nat) (name : List Nat)
  | output_description (output : Nat)
  | gamma_size (size : Nat)
  | gamma_failed
  deriving DecidableEq

/-- Delivery of one event through the listener tables `registry_listener`,
`output_listener` and `gamma_control_listener`.  An output event reaches its
handler with the listener data of the proxy; events for a proxy that has been
released are dropped by the library. -/
def dispatch_event (w : World) : Event → World
  | .global name interface version calloc_ok => handle_global w name interface version calloc_ok
  | .global_remove name => { w with state := handle_global_remove w.state name }
  | .output_geometry _ => w
  | .output_mode _ => w
  | .output_done output =>
    match w.proxies output with
    | none => w
    | some data => output_handle_done w data output
  | .output_scale _ => w
  | .output_name output name =>
    match w.proxies output with
    | none => w
    | some data => output_handle_name w data output name
  | .output_description _ => w
  | .gamma_size size => { w with state := gamma_control_handle_gamma_size w.state size }
  | .gamma_failed => { w with state := gamma_control_handle_failed w.state }

/-- The handler calls of one `wl_display_dispatch_pending`: the queued events
in order. -/
def dispatch_pending (w : World) (events : List Event) : World :=
  events.foldl dispatch_event w

/-! ## The event loop of `main` (main.c, lines 444-486) -/

/-- Exit status `EXIT_SUCCESS`. -/
def EXIT_SUCCESS : Nat := 0

/-- Exit status `EXIT_FAILURE`. -/
def EXIT_FAILURE : Nat := 1

/-- Control points of the loop: the loop condition, each library call, and
the code after the loop. -/
inductive Phase where
  | loop_cond
  | flush
  | poll_out
  | prepare_read
  | dispatch_queued
  | poll_in
  | read_events
  | dispatch_read
  | exited
  deriving DecidableEq

/-- The two control points at which the process blocks: `poll` for
write-readiness and `poll` for read-readiness, both without timeout. -/
def Phase.blocking : Phase → Bool
  | .poll_out => true
  | .poll_in => true
  | _ => false

/-- Result of `wl_display_flush`: success, -1 with `EAGAIN`, -1 otherwise. -/
inductive FlushResult where
  | ok
  | eagain
  | error
  deriving DecidableEq

/-- Result of `poll`: returned normally, -1 with `EINTR`, -1 otherwise. -/
inductive PollResult where
  | ready
  | eintr
  | error
  deriving DecidableEq

/-- What the environment does during one step: whether SIGINT or SIGTERM is
delivered (running `handle_signal`), and the result of the library call made
at the current control point. -/
structure EnvStep where
  signal : Bool
  flush : FlushResult
  poll : PollResult
  prepare_ok : Bool
  read_ok : Bool
  events : List Event
  dispatch_ok : Bool

/-- State of the loop: control point, program state, the `quit_requested`
flag and the exit status once assigned. -/
structure Dispatcher where
  pc : Phase
  w : World
  quit_requested : Bool
  ret : Option Nat

/-- The code after the loop (label `loop_end`):
`ret = state.failed ? EXIT_FAILURE : EXIT_SUCCESS`. -/
def loop_end (d : Dispatcher) : Dispatcher :=
  { d with pc := .exited, ret := some (if d.w.state.failed then EXIT_FAILURE else EXIT_SUCCESS) }

/-- Source `handle_signal`: `quit_requested = 1`. -/
def handle_signal (d : Dispatcher) : Dispatcher :=
  { d with quit_requested := true }

/-- Asynchronous delivery of a termination signal during a step. -/
def deliver_signal (d : Dispatcher) (e : EnvStep) : Dispatcher :=
  if e.signal then handle_signal d else d

/-- One step of the loop from the current control point. -/
def step (d0 : Dispatcher) (e : EnvStep) : Dispatcher :=
  let d := deliver_signal d0 e
  match d.pc with
  | .loop_cond =>
    if d.w.state.running && !d.quit_requested then { d with pc := .flush } else loop_end d
  | .flush =>
    match e.flush with
    | .ok => { d with pc := .prepare_read }
    | .eagain => { d with pc := .poll_out }
    | .error => loop_end d
  | .poll_out =>
    match e.poll with
    | .ready => { d with pc := .flush }
    | .eintr => { d with pc := .flush }
    | .error => loop_end d
  | .prepare_read =>
    if e.prepare_ok then { d with pc := .poll_in } else { d with pc := .dispatch_queued }
  | .dispatch_queued =>
    { d with w := dispatch_pending d.w e.events, pc := .loop_cond }
  | .poll_in =>
    match e.poll with
    | .ready => { d with pc := .read_events }
    | .eintr => { d with pc := .loop_cond }
    | .error => loop_end d
  | .read_events =>
    if e.read_ok then { d with pc := .dispatch_read } else loop_end d
  | .dispatch_read =>
    if e.dispatch_ok then { d with w := dispatch_pending d.w e.events, pc := .loop_cond }
    else loop_end { d with w := dispatch_pending d.w e.events }
  | .exited => d0

/-- An execution: the steps taken under a sequence of environment moves. -/
def run (d : Dispatcher) (es : List EnvStep) : Dispatcher :=
  es.foldl step d

/-- Entry to the loop: `state.running = true` (line 444). -/
def dispatcher_start (w : World) (quit : Bool) : Dispatcher :=
  { pc := .loop_cond, w := { w with state := { w.state with running := true } },
    quit_requested := quit, ret := none }

/-- An environment move without signal in which every call succeeds and no
event is queued. -/
def env_quiet : EnvStep :=
  { signal := false, flush := .ok, poll := .ready, prepare_ok := true, read_ok := true,
    events := [], dispatch_ok := true }

/-- The program state after setup in the scenario of two bound outputs
(globals 40 and 41, proxies 0 and 1) and target name "DP-1", no output
matched yet. -/
def world_two_outputs : World :=
  { state :=
      { output := none, gamma_manager := some 2, target_output_name := c_str "DP-1",
        matched_ctx := none, output_wl_name := 0, gamma_size := 0, output_matched := false,
        gamma_size_received := false, running := false, failed := false }
    heap := fun a => if a = 0 then some { wl_name := 40, matched := false }
      else if a = 1 then some { wl_name := 41, matched := false } else none
    proxies := fun p => if p = 0 then some 0 else if p = 1 then some 1 else none
    next := 3 }

example : ((dispatch_pending world_two_outputs [.output_name 0 (c_str "DP-1"), .output_name 1 (c_str "DP-1")]).state.output) = some 1 := by decide

/-- The program state on entry to the loop in the scenario: proxy 0 was named
"DP-1" and matched, proxy 1 was named "HDMI-A-1" and released, and table
size 256 was announced. -/
def world_calibrated : World :=
  dispatch_pending world_two_outputs
    [.output_name 0 (c_str "DP-1"), .output_done 0, .output_name 1 (c_str "HDMI-A-1"),
     .output_done 1, .gamma_size 256]

/-- From `d` on, the loop condition is evaluated before any blocking wait is
entered: an execution that reaches a blocking control point has passed
through the loop condition. -/
def checks_before_blocking (d : Dispatcher) : Prop :=
  ∀ es, Phase.blocking (run d es).pc = true →
    ∃ es1 es2, es = es1 ++ es2 ∧ (run d es1).pc = .loop_cond

/-- From `d` on, the loop never enters a blocking wait and has left the loop
after at most `k` steps. -/
def exits_within (k : Nat) (d : Dispatcher) : Prop :=
  ∀ es, Phase.blocking (run d es).pc = false ∧ (k ≤ es.length → (run d es).pc = .exited)

/-- The identity-name events of a delivery sequence, one per pair of proxy
and name. -/
def name_events (evs : List (Nat × List Nat)) : List Event :=
  evs.map (fun p => Event.output_name p.1 p.2)

/-! ## Quantisation lemmas -/

/-- The rounding is a nearest integer, and on a tie it is the one of larger
magnitude. -/
theorem spec_round_half_away_nearest (x : ℚ) :
    |(spec_round_half_away x : ℚ) - x| ≤ 1 / 2 ∧
    (|(spec_round_half_away x : ℚ) - x| = 1 / 2 → |x| < |(spec_round_half_away x : ℚ)|) := by
  unfold spec_round_half_away
  have hfl := Int.floor_le (|x| + 1 / 2)
  have hlt := Int.lt_floor_add_one (|x| + 1 / 2)
  by_cases h : x < 0
  · have hab : |x| = -x := abs_of_neg h
    rw [hab] at hfl hlt
    simp only [h, if_true, hab]
    set n : Int := ⌊-x + 1 / 2⌋ with hn
    have hn0 : (0 : ℚ) ≤ (n : ℚ) := by
      have : (0 : Int) ≤ n := Int.floor_nonneg.mpr (by linarith)
      exact_mod_cast this
    push_cast
    constructor
    · rw [abs_le]; constructor <;> linarith
    · intro he
      rw [abs_of_nonpos (by linarith : -1 * (n : ℚ) ≤ 0)]
      rcases abs_eq (by norm_num : (0 : ℚ) ≤ 1 / 2) |>.mp he with h1 | h1 <;> linarith
  · have hx : 0 ≤ x := not_lt.mp h
    have hab : |x| = x := abs_of_nonneg hx
    rw [hab] at hfl hlt
    simp only [h, if_false, hab]
    set n : Int := ⌊x + 1 / 2⌋ with hn
    have hn0 : (0 : ℚ) ≤ (n : ℚ) := by
      have : (0 : Int) ≤ n := Int.floor_nonneg.mpr (by linarith)
      exact_mod_cast this
    push_cast
    constructor
    · rw [abs_le]; constructor <;> linarith
    · intro he
      rw [abs_of_nonneg (by linarith : (0 : ℚ) ≤ 1 * (n : ℚ))]
      rcases abs_eq (by norm_num : (0 : ℚ) ≤ 1 / 2) |>.mp he with h1 | h1 <;> linarith

theorem lround_in_range (oor : ℚ → Int) (x : ℚ)
    (h1 : LONG_MIN ≤ lround_value x) (h2 : lround_value x ≤ LONG_MAX) :
    lround oor x = lround_value x := by
  unfold lround
  rw [if_pos ⟨h1, h2⟩]

theorem float_to_u16_of_in_range (oor : ℚ → Int) (v : ℚ)
    (h1 : LONG_MIN ≤ lround_value (v * 65535)) (h2 : lround_value (v * 65535) ≤ LONG_MAX) :
    float_to_u16 oor v = spec_clamp_u16 (lround_value (v * 65535)) := by
  unfold float_to_u16 spec_clamp_u16
  rw [lround_in_range oor _ h1 h2]
  simp only
  split_ifs <;> omega

/-! ## Binary32 lemmas -/

theorem gamma_loop_body_eq (oor : ℚ → Int) (n : Nat) (vcgt : Fin 3 → ℚ → ℚ)
    (g b : Nat) (t : List Nat) (i : Nat) :
    gamma_loop_body oor n vcgt g b t i =
      ((t.set i (sample_value oor n vcgt 0 i)).set (g + i) (sample_value oor n vcgt 1 i)).set
        (b + i) (sample_value oor n vcgt 2 i) := rfl

theorem gamma_loop_length (oor : ℚ → Int) (n : Nat) (vcgt : Fin 3 → ℚ → ℚ)
    (g b : Nat) (t : List Nat) (k : Nat) :
    ((List.range k).foldl (gamma_loop_body oor n vcgt g b) t).length = t.length := by
  induction k with
  | zero => simp
  | succ k ih =>
    rw [List.range_succ, List.foldl_append]
    simp [gamma_loop_body_eq, ih]

/-- An index no iteration below `k` writes keeps its initial content. -/
theorem gamma_loop_untouched (oor : ℚ → Int) (n : Nat) (vcgt : Fin 3 → ℚ → ℚ)
    (g b : Nat) (t : List Nat) (j : Nat) (k : Nat)
    (h : ∀ i, i < k → i ≠ j ∧ g + i ≠ j ∧ b + i ≠ j) :
    ((List.range k).foldl (gamma_loop_body oor n vcgt g b) t)[j]? = t[j]? := by
  induction k with
  | zero => simp
  | succ k ih =>
    rw [List.range_succ, List.foldl_append]
    have hk := h k (Nat.lt_succ_self k)
    have ih1 := ih (fun i hi => h i (Nat.lt_succ_of_lt hi))
    simp only [List.foldl_cons, List.foldl_nil, gamma_loop_body_eq]
    rw [List.getElem?_set_ne hk.2.2, List.getElem?_set_ne hk.2.1, List.getElem?_set_ne hk.1]
    exact ih1

/-- Content of an in-bounds index after iteration `i0`, in terms of which of
the three stores of that iteration hit it last, provided no later iteration
writes it. -/
theorem gamma_loop_written (oor : ℚ → Int) (n : Nat) (vcgt : Fin 3 → ℚ → ℚ)
    (g b : Nat) (t : List Nat) (j i0 k : Nat) (hi0 : i0 < k) (hj : j < t.length)
    (hlater : ∀ i, i0 < i → i < k → i ≠ j ∧ g + i ≠ j ∧ b + i ≠ j) :
    ((List.range k).foldl (gamma_loop_body oor n vcgt g b) t)[j]? =
      if b + i0 = j then some (sample_value oor n vcgt 2 i0)
      else if g + i0 = j then some (sample_value oor n vcgt 1 i0)
      else if i0 = j then some (sample_value oor n vcgt 0 i0)
      else ((List.range i0).foldl (gamma_loop_body oor n vcgt g b) t)[j]? := by
  induction k with
  | zero => omega
  | succ k ih =>
    rw [List.range_succ, List.foldl_append]
    simp only [List.foldl_cons, List.foldl_nil, gamma_loop_body_eq]
    by_cases hk : i0 = k
    · subst hk
      have hlen := gamma_loop_length oor n vcgt g b t i0
      simp only [List.getElem?_set, List.length_set, hlen]
      by_cases h1 : b + i0 = j
      · have : b + i0 < t.length := by omega
        simp [h1, hj]
      · by_cases h2 : g + i0 = j
        · have : g + i0 < t.length := by omega
          simp [h1, h2, hj]
        · by_cases h3 : i0 = j
          · subst h3
            have hb : b ≠ 0 := by omega
            have hg : g ≠ 0 := by omega
            simp [hb, hg, hj]
          · simp [h1, h2, h3]
    · have hlt : i0 < k := by omega
      have hk1 := hlater k hlt (Nat.lt_succ_self k)
      rw [List.getElem?_set_ne hk1.2.2, List.getElem?_set_ne hk1.2.1,
        List.getElem?_set_ne hk1.1]
      exact ih hlt (fun i h1 h2 => hlater i h1 (Nat.lt_succ_of_lt h2))

theorem generate_gamma_table_eq (oor : ℚ → Int) (n : Nat) (vcgt : Fin 3 → ℚ → ℚ)
    (hn : n < UINT32_MOD) :
    generate_gamma_table oor true n vcgt =
      some ((List.range n).foldl
        (gamma_loop_body oor n vcgt n ((2 * n) % UINT32_MOD)) (List.replicate (3 * n) 0)) := by
  unfold UINT32_MOD at hn
  have h1 : (n % SIZE_MOD * 3) % SIZE_MOD = 3 * n := by
    unfold SIZE_MOD
    omega
  simp only [generate_gamma_table, calloc, h1, if_true]

theorem generate_gamma_table_null (oor : ℚ → Int) (n : Nat) (vcgt : Fin 3 → ℚ → ℚ) :
    generate_gamma_table oor false n vcgt = none := by
  simp [generate_gamma_table, calloc]

theorem float_to_u16_one (oor : ℚ → Int) : float_to_u16 oor 1 = 65535 := by
  rw [float_to_u16_of_in_range oor 1
    (by norm_num [lround_value, LONG_MIN]) (by norm_num [lround_value, LONG_MAX])]
  norm_num [lround_value, spec_clamp_u16]
  rfl

theorem float_to_u16_zero (oor : ℚ → Int) : float_to_u16 oor 0 = 0 := by
  rw [float_to_u16_of_in_range oor 0
    (by norm_num [lround_value, LONG_MIN]) (by norm_num [lround_value, LONG_MAX])]
  norm_num [lround_value, spec_clamp_u16]

/-- Every store of the loop lies inside the `3 * gamma_size` entries. -/
theorem gamma_loop_stores_in_bounds (n i : Nat) (hi : i < n) :
    i < 3 * n ∧ n + i < 3 * n ∧ (2 * n) % UINT32_MOD + i < 3 * n := by
  unfold UINT32_MOD at *
  omega

/-- From 2^31 samples per channel on, the last entry of the table, the place
of blue sample `gamma_size - 1`, is never written. -/
theorem generate_gamma_table_wrap_tail (oor : ℚ → Int) (vcgt : Fin 3 → ℚ → ℚ) (n : Nat)
    (h1 : 2147483648 ≤ n) (h2 : n < UINT32_MOD) :
    ∃ t, generate_gamma_table oor true n vcgt = some t ∧ t.length = 3 * n ∧
      table_sample t n 2 (n - 1) = some 0 := by
  refine ⟨_, generate_gamma_table_eq oor n vcgt h2, ?_, ?_⟩
  · rw [gamma_loop_length]; simp
  · unfold table_sample
    rw [gamma_loop_untouched oor n vcgt n _ _ ((2 : Fin 3).val * n + (n - 1)) n
      (by
        intro i hi
        unfold UINT32_MOD at *
        simp only [Fin.val_two]
        omega)]
    rw [List.getElem?_replicate, if_pos (by simp only [Fin.val_two]; omega)]

/-- The table generated at 2^31 samples per channel: the `uint32_t` product
`2 * gamma_size` is 0, so `b` aliases `r`. -/
theorem generate_gamma_table_wrap (oor : ℚ → Int) (vcgt : Fin 3 → ℚ → ℚ) (n : Nat)
    (hn : n = 2147483648) :
    ∃ t, generate_gamma_table oor true n vcgt = some t ∧ t.length = 3 * n ∧
      table_sample t n 0 0 = some (sample_value oor n vcgt 2 0) ∧
      table_sample t n 2 0 = some 0 := by
  have hn32 : n < UINT32_MOD := by unfold UINT32_MOD; omega
  have hb : (2 * n) % UINT32_MOD = 0 := by unfold UINT32_MOD; omega
  refine ⟨_, generate_gamma_table_eq oor n vcgt hn32, ?_, ?_, ?_⟩
  · rw [gamma_loop_length]; simp
  · unfold table_sample
    rw [hb, gamma_loop_written oor n vcgt n 0 _ ((0 : Fin 3).val * n + 0) 0 n (by omega)
      (by simp; omega) (by intro i h1 h2; simp; omega)]
    simp
  · unfold table_sample
    rw [hb, gamma_loop_untouched oor n vcgt n 0 _ ((2 : Fin 3).val * n + 0) n
      (by intro i h1; simp; omega)]
    rw [List.getElem?_replicate, if_pos (by simp; omega)]

theorem apply_gamma_table_size_eq (n : Nat) (hn : n < UINT32_MOD) :
    apply_gamma_table_size n = n * 3 * 2 := by
  unfold UINT32_MOD at hn
  unfold apply_gamma_table_size SIZE_MOD
  omega

theorem table_bytes_length (t : List Nat) : (table_bytes t).length = 2 * t.length := by
  induction t with
  | nil => rfl
  | cons v rest ih =>
    simp only [table_bytes, u16_bytes, List.length_append, List.length_cons, List.length_nil, ih]
    omega

/-- On success `apply_gamma` returns 0 and publishes exactly `N * 3 * 2` bytes
of a table of `3 * N` entries; when a system call fails it returns -1 and
publishes nothing. -/
theorem apply_gamma_publishes (sys : ApplySys) (n : Nat) (t : List Nat)
    (hn : n < UINT32_MOD) (ht : t.length = 3 * n) :
    (sys.memfd_ok = true → sys.ftruncate_ok = true → sys.mmap_ok = true →
      apply_gamma sys n t = (0, some (table_bytes t)) ∧
      (table_bytes t).length = n * 3 * 2) ∧
    ((sys.memfd_ok = false ∨ sys.ftruncate_ok = false ∨ sys.mmap_ok = false) →
      apply_gamma sys n t = (-1, none)) := by
  have hlen : (table_bytes t).length = n * 3 * 2 := by
    rw [table_bytes_length, ht]
    omega
  constructor
  · intro h1 h2 h3
    refine ⟨?_, hlen⟩
    simp only [apply_gamma, h1, h2, h3, apply_gamma_table_size_eq n hn]
    simp [← hlen]
  · intro h
    unfold apply_gamma
    rcases h with h | h | h
    · simp [h]
    · cases sys.memfd_ok <;> simp [h]
    · cases sys.memfd_ok <;> cases sys.ftruncate_ok <;> simp [h]

/-! ## Claims on the LUT sampler -/

/-- C9 failing input: at gamma_size = 2^31 with red and green curves 0 and blue
curve 1, the allocation holds 3 * 2^31 entries and apply_gamma publishes
6 * 2^31 bytes, but table entry 0 (red sample 0, which is 0) holds the blue
sample 65535 and entry 2 * 2^31 (blue sample 0, which is 65535) holds 0. -/
theorem generate_gamma_table_blue_offset_wraps :
    ∃ t, generate_gamma_table (fun _ => 0) true 2147483648
        (fun c _ => if c = 2 then 1 else 0) = some t ∧
      t.length = 3 * 2147483648 ∧
      apply_gamma_table_size 2147483648 = 2147483648 * 3 * 2 ∧
      sample_value (fun _ => 0) 2147483648 (fun c _ => if c = 2 then 1 else 0) 0 0 = 0 ∧
      table_sample t 2147483648 0 0 = some 65535 ∧
      sample_value (fun _ => 0) 2147483648 (fun c _ => if c = 2 then 1 else 0) 2 0 = 65535 ∧
      table_sample t 2147483648 2 0 = some 0 := by
  obtain ⟨t, ht, hlen, h0, h2⟩ := generate_gamma_table_wrap (fun _ => 0)
    (fun c _ => if c = 2 then 1 else 0) 2147483648 rfl
  have hb : sample_value (fun _ => 0) 2147483648
      (fun (c : Fin 3) (_ : ℚ) => if c = 2 then (1 : ℚ) else 0) 2 0 = 65535 := by
    unfold sample_value
    simp only [if_true]
    exact float_to_u16_one _
  have hr : sample_value (fun _ => 0) 2147483648
      (fun (c : Fin 3) (_ : ℚ) => if c = 2 then (1 : ℚ) else 0) 0 0 = 0 := by
    unfold sample_value
    have : ¬ ((0 : Fin 3) = 2) := by decide
    simp only [this, if_false]
    exact float_to_u16_zero _
  refine ⟨t, ht, hlen, ?_, hr, ?_, hb, h2⟩
  · unfold apply_gamma_table_size SIZE_MOD
    norm_num
  · rw [h0, hb]

/-! ## Output matcher -/

theorem strcmp_eq_zero_iff (a b : List Nat) (ha : 0 ∉ a) (hb : 0 ∉ b) :
    strcmp a b = 0 ↔ a = b := by
  induction a generalizing b with
  | nil =>
    cases b with
    | nil => simp [strcmp]
    | cons y ys =>
      have hy : y ≠ 0 := fun h => hb (by simp [h])
      simp only [strcmp]
      constructor
      · intro h; omega
      · intro h; cases h
  | cons x xs ih =>
    have hx : x ≠ 0 := fun h => ha (by simp [h])
    cases b with
    | nil =>
      simp only [strcmp]
      constructor
      · intro h; omega
      · intro h; cases h
    | cons y ys =>
      have hxs : 0 ∉ xs := fun h => ha (List.mem_cons_of_mem _ h)
      have hys : 0 ∉ ys := fun h => hb (List.mem_cons_of_mem _ h)
      simp only [strcmp]
      by_cases hxy : x = y
      · subst hxy
        simp [ih ys hxs hys]
      · rw [if_neg hxy]
        constructor
        · intro h; omega
        · intro h
          cases h
          exact absurd rfl hxy

/-- C3: with the candidate's context allocated and both names C strings,
output_handle_name on an equal name records the proxy, the candidate's global
id, output_matched and matched_ctx in the state and sets the candidate's
matched flag, touching nothing else; on a different name it returns the
program state unchanged; so an unmatched candidate is marked if and only if
the names are equal byte for byte. -/
theorem output_handle_name_exact (w : World) (data output : Nat) (name : List Nat)
    (ctx : output_context) (hctx : w.heap data = some ctx)
    (hn : 0 ∉ name) (ht : 0 ∉ w.state.target_output_name) :
    (name = w.state.target_output_name →
      (output_handle_name w data output name).state =
        { w.state with output := some output, output_wl_name := ctx.wl_name,
                       output_matched := true, matched_ctx := some data } ∧
      (output_handle_name w data output name).heap data = some { ctx with matched := true } ∧
      (∀ a, a ≠ data → (output_handle_name w data output name).heap a = w.heap a) ∧
      (output_handle_name w data output name).proxies = w.proxies ∧
      (output_handle_name w data output name).next = w.next) ∧
    (name ≠ w.state.target_output_name → output_handle_name w data output name = w) ∧
    (ctx.matched = false →
      (((output_handle_name w data output name).heap data = some { ctx with matched := true } ∧
        (output_handle_name w data output name).state.output_matched = true ∧
        (output_handle_name w data output name).state.output_wl_name = ctx.wl_name) ↔
        name = w.state.target_output_name)) := by
  have hcmp := strcmp_eq_zero_iff name w.state.target_output_name hn ht
  have heq : name = w.state.target_output_name →
      output_handle_name w data output name =
        { w with
          state := { w.state with output := some output, output_wl_name := ctx.wl_name,
                                  output_matched := true, matched_ctx := some data }
          heap := fun a => if a = data then some { ctx with matched := true } else w.heap a } := by
    intro h
    simp only [output_handle_name, hctx, hcmp.mpr h, if_true]
  have hne : name ≠ w.state.target_output_name → output_handle_name w data output name = w := by
    intro h
    have : ¬ strcmp name w.state.target_output_name = 0 := fun h0 => h (hcmp.mp h0)
    simp only [output_handle_name, hctx, this, if_false]
  refine ⟨?_, hne, ?_⟩
  · intro h
    rw [heq h]
    refine ⟨rfl, by simp, ?_, rfl, rfl⟩
    intro a ha
    simp [ha]
  · intro hm
    constructor
    · intro h
      by_contra hcon
      rw [hne hcon, hctx] at h
      have h1 := h.1
      simp only [Option.some.injEq] at h1
      have h2 : ctx.matched = true := by rw [h1]
      rw [hm] at h2
      exact Bool.noConfusion h2
    · intro h
      rw [heq h]
      simp

/-- C3 witness: candidate "DP-1" against target "dp-1" leaves the program
state unchanged. -/
theorem output_handle_name_exact_witness :
    c_str "DP-1" ≠ c_str "dp-1" ∧
    output_handle_name
      { world_two_outputs with
        state := { world_two_outputs.state with target_output_name := c_str "dp-1" } }
      0 0 (c_str "DP-1") =
      { world_two_outputs with
        state := { world_two_outputs.state with target_output_name := c_str "dp-1" } } :=
  ⟨by decide,
    (output_handle_name_exact
      { world_two_outputs with
        state := { world_two_outputs.state with target_output_name := c_str "dp-1" } }
      0 0 (c_str "DP-1") { wl_name := 40, matched := false } rfl (by decide) (by decide)).2.1
      (by decide)⟩

/-- C7: with the candidate's context allocated, output_handle_done on an
unmatched candidate releases the output proxy and frees the context, leaving
every other proxy, every other context and the state as they were; on a
matched candidate it changes nothing, so the proxy is retained; hence the
proxy and context are gone afterwards if and only if the candidate was not
matched.  The done event of a live proxy reaches this handler. -/
theorem output_handle_done_release (w : World) (data output : Nat) (ctx : output_context)
    (hctx : w.heap data = some ctx) :
    (ctx.matched = false →
      (output_handle_done w data output).proxies output = none ∧
      (output_handle_done w data output).heap data = none ∧
      (∀ p, p ≠ output → (output_handle_done w data output).proxies p = w.proxies p) ∧
      (∀ a, a ≠ data → (output_handle_done w data output).heap a = w.heap a) ∧
      (output_handle_done w data output).state = w.state) ∧
    (ctx.matched = true → output_handle_done w data output = w) ∧
    (w.proxies output = some data →
      (((output_handle_done w data output).proxies output = none ∧
        (output_handle_done w data output).heap data = none) ↔ ctx.matched = false)) ∧
    (w.proxies output = some data →
      dispatch_event w (.output_done output) = output_handle_done w data output) := by
  have hrel : ctx.matched = false →
      output_handle_done w data output =
        { w with
          proxies := fun p => if p = output then none else w.proxies p
          heap := fun a => if a = data then none else w.heap a } := by
    intro h
    simp [output_handle_done, hctx, h]
  have hkeep : ctx.matched = true → output_handle_done w data output = w := by
    intro h
    simp [output_handle_done, hctx, h]
  refine ⟨?_, hkeep, ?_, ?_⟩
  · intro h
    rw [hrel h]
    refine ⟨by simp, by simp, ?_, ?_, rfl⟩
    · intro p hp; simp [hp]
    · intro a ha; simp [ha]
  · intro hp
    constructor
    · intro h
      by_contra hcon
      have hm : ctx.matched = true := by
        cases hc : ctx.matched
        · exact absurd hc hcon
        · rfl
      rw [hkeep hm, hp] at h
      exact Option.noConfusion h.1
    · intro h
      rw [hrel h]
      simp
  · intro hp
    simp [dispatch_event, hp]

/-- C7 witness: the done event of the unmatched candidate behind proxy 1
releases proxy 1 and frees its context. -/
theorem output_handle_done_release_witness :
    (output_handle_done world_two_outputs 1 1).proxies 1 = none ∧
    (output_handle_done world_two_outputs 1 1).heap 1 = none :=
  ⟨((output_handle_done_release world_two_outputs 1 1 { wl_name := 41, matched := false }
      rfl).1 rfl).1,
   ((output_handle_done_release world_two_outputs 1 1 { wl_name := 41, matched := false }
      rfl).1 rfl).2.1⟩

theorem dispatch_pending_append (w : World) (xs ys : List Event) :
    dispatch_pending w (xs ++ ys) = dispatch_pending (dispatch_pending w xs) ys := by
  simp [dispatch_pending, List.foldl_append]

theorem dispatch_pending_cons (w : World) (e : Event) (rest : List Event) :
    dispatch_pending w (e :: rest) = dispatch_pending (dispatch_event w e) rest := rfl

/-- Effect of one identity-name event on the program state. -/
theorem name_event_step (w : World) (o : Nat) (nm : List Nat) :
    (dispatch_event w (.output_name o nm)).proxies = w.proxies ∧
    (dispatch_event w (.output_name o nm)).state.target_output_name =
      w.state.target_output_name ∧
    (∀ a c, w.heap a = some c →
      ∃ c1, (dispatch_event w (.output_name o nm)).heap a = some c1 ∧
        c1.wl_name = c.wl_name ∧ (c.matched = true → c1.matched = true)) ∧
    (∀ a, (w.proxies o ≠ some a ∨ strcmp nm w.state.target_output_name ≠ 0) →
      (dispatch_event w (.output_name o nm)).heap a = w.heap a) ∧
    (strcmp nm w.state.target_output_name ≠ 0 → dispatch_event w (.output_name o nm) = w) ∧
    (∀ a c, w.proxies o = some a → w.heap a = some c →
      strcmp nm w.state.target_output_name = 0 →
      (dispatch_event w (.output_name o nm)).heap a = some { c with matched := true } ∧
      (dispatch_event w (.output_name o nm)).state.output = some o ∧
      (dispatch_event w (.output_name o nm)).state.output_wl_name = c.wl_name ∧
      (dispatch_event w (.output_name o nm)).state.matched_ctx = some a ∧
      (dispatch_event w (.output_name o nm)).state.output_matched = true) := by
  cases hp : w.proxies o with
  | none =>
    have e : dispatch_event w (.output_name o nm) = w := by simp [dispatch_event, hp]
    rw [e]
    refine ⟨rfl, rfl, fun a c h => ⟨c, h, rfl, id⟩, fun _ _ => rfl, fun _ => rfl, ?_⟩
    intro a c h
    exact Option.noConfusion h
  | some data =>
    cases hh : w.heap data with
    | none =>
      have e : dispatch_event w (.output_name o nm) = w := by
        simp [dispatch_event, hp, output_handle_name, hh]
      rw [e]
      refine ⟨rfl, rfl, fun a c h => ⟨c, h, rfl, id⟩, fun _ _ => rfl, fun _ => rfl, ?_⟩
      intro a c h1 h2
      cases h1
      rw [hh] at h2
      exact Option.noConfusion h2
    | some ctx =>
      by_cases hs : strcmp nm w.state.target_output_name = 0
      · have e : dispatch_event w (.output_name o nm) =
            { w with
              state := { w.state with output := some o, output_wl_name := ctx.wl_name,
                                      output_matched := true, matched_ctx := some data }
              heap := fun a => if a = data then some { ctx with matched := true }
                else w.heap a } := by
          simp [dispatch_event, hp, output_handle_name, hh, hs]
        rw [e]
        refine ⟨rfl, rfl, ?_, ?_, fun h => absurd hs h, ?_⟩
        · intro a c h
          by_cases ha : a = data
          · subst ha
            rw [hh] at h
            cases h
            exact ⟨{ ctx with matched := true }, by simp, rfl, fun _ => rfl⟩
          · exact ⟨c, by simp [ha, h], rfl, id⟩
        · intro a h
          rcases h with h | h
          · have : a ≠ data := fun e => h (by rw [e])
            simp [this]
          · exact absurd hs h
        · intro a c h1 h2 _
          cases h1
          rw [hh] at h2
          cases h2
          simp
      · have e : dispatch_event w (.output_name o nm) = w := by
          simp [dispatch_event, hp, output_handle_name, hh, hs]
        rw [e]
        refine ⟨rfl, rfl, fun a c h => ⟨c, h, rfl, id⟩, fun _ _ => rfl, fun _ => rfl, ?_⟩
        intro a c _ _ h3
        exact absurd h3 hs

theorem name_events_cons (w : World) (p : Nat × List Nat) (rest : List (Nat × List Nat)) :
    dispatch_pending w (name_events (p :: rest)) =
      dispatch_pending (dispatch_event w (.output_name p.1 p.2)) (name_events rest) := rfl

theorem name_events_append (w : World) (xs ys : List (Nat × List Nat)) :
    dispatch_pending w (name_events (xs ++ ys)) =
      dispatch_pending (dispatch_pending w (name_events xs)) (name_events ys) := by
  simp [name_events, dispatch_pending_append]

/-- What a sequence of identity-name events preserves. -/
theorem name_events_preserve (w : World) (evs : List (Nat × List Nat)) :
    (dispatch_pending w (name_events evs)).proxies = w.proxies ∧
    (dispatch_pending w (name_events evs)).state.target_output_name =
      w.state.target_output_name ∧
    (∀ a c, w.heap a = some c →
      ∃ c1, (dispatch_pending w (name_events evs)).heap a = some c1 ∧
        c1.wl_name = c.wl_name ∧ (c.matched = true → c1.matched = true)) := by
  induction evs generalizing w with
  | nil => exact ⟨rfl, rfl, fun a c h => ⟨c, h, rfl, id⟩⟩
  | cons p rest ih =>
    rw [name_events_cons]
    obtain ⟨s1, s2, s3, -, -, -⟩ := name_event_step w p.1 p.2
    obtain ⟨i1, i2, i3⟩ := ih (dispatch_event w (.output_name p.1 p.2))
    refine ⟨by rw [i1, s1], by rw [i2, s2], ?_⟩
    intro a c h
    obtain ⟨c1, h1, h2, h3⟩ := s3 a c h
    obtain ⟨c2, k1, k2, k3⟩ := i3 a c1 h1
    exact ⟨c2, k1, by rw [k2, h2], fun hm => k3 (h3 hm)⟩

/-- A context no target-named event of the sequence refers to is left as it
was. -/
theorem name_events_heap_untouched (w : World) (evs : List (Nat × List Nat)) (a : Nat)
    (h : ∀ q ∈ evs, strcmp q.2 w.state.target_output_name ≠ 0 ∨ w.proxies q.1 ≠ some a) :
    (dispatch_pending w (name_events evs)).heap a = w.heap a := by
  induction evs generalizing w with
  | nil => rfl
  | cons p rest ih =>
    rw [name_events_cons]
    obtain ⟨s1, s2, -, s4, -, -⟩ := name_event_step w p.1 p.2
    rw [ih (dispatch_event w (.output_name p.1 p.2)) (by
      intro q hq
      rw [s1, s2]
      exact h q (List.mem_cons_of_mem _ hq))]
    apply s4
    rcases h p (List.mem_cons_self _ _) with h1 | h1
    · exact Or.inr h1
    · exact Or.inl h1

/-- A sequence without target-named events changes nothing. -/
theorem name_events_no_target (w : World) (evs : List (Nat × List Nat))
    (h : ∀ q ∈ evs, strcmp q.2 w.state.target_output_name ≠ 0) :
    dispatch_pending w (name_events evs) = w := by
  induction evs generalizing w with
  | nil => rfl
  | cons p rest ih =>
    rw [name_events_cons]
    obtain ⟨-, -, -, -, s5, -⟩ := name_event_step w p.1 p.2
    rw [s5 (h p (List.mem_cons_self _ _))]
    exact ih w (fun q hq => h q (List.mem_cons_of_mem _ hq))

/-- C8 (amended): for a sequence of identity-name events delivered to
distinct live candidates, all unmatched beforehand, each with its own
context: afterwards a candidate is matched if and only if its name equals the
target, so as many candidates are matched as carry the target name; the
recorded output, global id and matched context are those of the last
target-named candidate delivered; and with no target-named candidate the
program state is unchanged. -/
theorem name_sequence_last_match_wins (w : World) (evs : List (Nat × List Nat))
    (hnodup : (evs.map Prod.fst).Nodup)
    (hlive : ∀ p ∈ evs, ∃ a ctx, w.proxies p.1 = some a ∧ w.heap a = some ctx ∧
      ctx.matched = false)
    (hinj : ∀ p ∈ evs, ∀ q ∈ evs, w.proxies p.1 = w.proxies q.1 → p.1 = q.1)
    (htarget : 0 ∉ w.state.target_output_name) (hnames : ∀ p ∈ evs, 0 ∉ p.2) :
    (∀ p ∈ evs, ∀ a, w.proxies p.1 = some a →
      ∃ ctx, (dispatch_pending w (name_events evs)).heap a = some ctx ∧
        (ctx.matched = true ↔ p.2 = w.state.target_output_name)) ∧
    (∀ pre p post, evs = pre ++ p :: post → p.2 = w.state.target_output_name →
      (∀ q ∈ post, q.2 ≠ w.state.target_output_name) →
      ∀ a ctx, w.proxies p.1 = some a → w.heap a = some ctx →
        (dispatch_pending w (name_events evs)).state.output = some p.1 ∧
        (dispatch_pending w (name_events evs)).state.output_wl_name = ctx.wl_name ∧
        (dispatch_pending w (name_events evs)).state.matched_ctx = some a ∧
        (dispatch_pending w (name_events evs)).state.output_matched = true) ∧
    ((∀ p ∈ evs, p.2 ≠ w.state.target_output_name) →
      dispatch_pending w (name_events evs) = w) := by
  have hcmp : ∀ p ∈ evs, (strcmp p.2 w.state.target_output_name = 0 ↔
      p.2 = w.state.target_output_name) :=
    fun p hp => strcmp_eq_zero_iff p.2 _ (hnames p hp) htarget
  refine ⟨?_, ?_, ?_⟩
  · intro p hp a ha
    obtain ⟨a1, ctx, h1, h2, h3⟩ := hlive p hp
    rw [ha] at h1
    cases h1
    by_cases ht : p.2 = w.state.target_output_name
    · obtain ⟨pre, post, rfl⟩ := List.append_of_mem hp
      rw [name_events_append, name_events_cons]
      obtain ⟨q1, q2, q3⟩ := name_events_preserve w pre
      obtain ⟨c1, k1, -, -⟩ := q3 a ctx h2
      obtain ⟨-, -, -, -, -, s6⟩ :=
        name_event_step (dispatch_pending w (name_events pre)) p.1 p.2
      have hm := (s6 a c1 (by rw [q1]; exact ha) k1 (by rw [q2]; exact (hcmp p hp).mpr ht)).1
      obtain ⟨-, -, r3⟩ := name_events_preserve
        (dispatch_event (dispatch_pending w (name_events pre)) (.output_name p.1 p.2)) post
      obtain ⟨c2, m1, -, m3⟩ := r3 a _ hm
      exact ⟨c2, m1, fun _ => ht, fun _ => m3 rfl⟩
    · refine ⟨ctx, ?_, ?_⟩
      · rw [name_events_heap_untouched w evs a, h2]
        intro q hq
        by_cases hqa : w.proxies q.1 = some a
        · left
          have hfst : q.1 = p.1 := hinj q hq p hp (by rw [hqa, ha])
          have hqp : q = p := List.inj_on_of_nodup_map hnodup hq hp hfst
          rw [hqp]
          exact fun h0 => ht ((hcmp p hp).mp h0)
        · exact Or.inr hqa
      · rw [h3]
        exact ⟨fun h => Bool.noConfusion h, fun h => absurd h ht⟩
  · intro pre p post hev ht hpost a ctx ha hh
    have hp : p ∈ evs := by rw [hev]; simp
    have hsub : ∀ q ∈ post, q ∈ evs := by
      intro q hq
      rw [hev]
      simp [hq]
    rw [hev, name_events_append, name_events_cons]
    obtain ⟨q1, q2, q3⟩ := name_events_preserve w pre
    obtain ⟨c1, k1, k2, -⟩ := q3 a ctx hh
    obtain ⟨-, s2, -, -, -, s6⟩ :=
      name_event_step (dispatch_pending w (name_events pre)) p.1 p.2
    have hm := s6 a c1 (by rw [q1]; exact ha) k1 (by rw [q2]; exact (hcmp p hp).mpr ht)
    rw [name_events_no_target _ post (by
      intro q hq
      rw [s2, q2]
      exact fun h0 => hpost q hq ((hcmp q (hsub q hq)).mp h0))]
    exact ⟨hm.2.1, by rw [hm.2.2.1, k2], hm.2.2.2.1, hm.2.2.2.2⟩
  · intro h
    exact name_events_no_target w evs (fun q hq h0 => h q hq ((hcmp q hq).mp h0))

/-- C8 witness: "HDMI-A-1" delivered to proxy 1 and then "DP-1" to proxy 0 in
the two-output scenario records proxy 0 and global 40. -/
theorem name_sequence_last_match_wins_witness :
    (dispatch_pending world_two_outputs
      (name_events [(1, c_str "HDMI-A-1"), (0, c_str "DP-1")])).state.output = some 0 ∧
    (dispatch_pending world_two_outputs
      (name_events [(1, c_str "HDMI-A-1"), (0, c_str "DP-1")])).state.output_wl_name = 40 ∧
    (dispatch_pending world_two_outputs
      (name_events [(1, c_str "HDMI-A-1"), (0, c_str "DP-1")])).state.matched_ctx = some 0 ∧
    (dispatch_pending world_two_outputs
      (name_events [(1, c_str "HDMI-A-1"), (0, c_str "DP-1")])).state.output_matched = true :=
  (name_sequence_last_match_wins world_two_outputs
    [(1, c_str "HDMI-A-1"), (0, c_str "DP-1")] (by decide)
    (by
      intro p hp
      simp only [List.mem_cons, List.mem_singleton, List.not_mem_nil, or_false] at hp
      rcases hp with rfl | rfl
      · exact ⟨1, { wl_name := 41, matched := false }, rfl, rfl, rfl⟩
      · exact ⟨0, { wl_name := 40, matched := false }, rfl, rfl, rfl⟩)
    (by
      intro p hp q hq
      simp only [List.mem_cons, List.mem_singleton, List.not_mem_nil, or_false] at hp hq
      rcases hp with rfl | rfl <;> rcases hq with rfl | rfl <;> decide)
    (by decide)
    (by
      intro p hp
      simp only [List.mem_cons, List.mem_singleton, List.not_mem_nil, or_false] at hp
      rcases hp with rfl | rfl <;> decide)).2.1
    [(1, c_str "HDMI-A-1")] (0, c_str "DP-1") [] rfl (by decide)
    (by intro q hq; cases hq) 0 { wl_name := 40, matched := false } rfl rfl

/-- C8 counterexample: in the two-output scenario with both candidates named
"DP-1", delivered to proxy 0 and then to proxy 1, both contexts end up
matched, and the recorded output, global id and matched context are those of
proxy 1, the second delivered, not of proxy 0, the first. -/
theorem duplicate_names_both_matched :
    (dispatch_pending world_two_outputs
      (name_events [(0, c_str "DP-1"), (1, c_str "DP-1")])).heap 0 =
        some { wl_name := 40, matched := true } ∧
    (dispatch_pending world_two_outputs
      (name_events [(0, c_str "DP-1"), (1, c_str "DP-1")])).heap 1 =
        some { wl_name := 41, matched := true } ∧
    (dispatch_pending world_two_outputs
      (name_events [(0, c_str "DP-1"), (1, c_str "DP-1")])).state.output = some 1 ∧
    (dispatch_pending world_two_outputs
      (name_events [(0, c_str "DP-1"), (1, c_str "DP-1")])).state.output_wl_name = 41 ∧
    (dispatch_pending world_two_outputs
      (name_events [(0, c_str "DP-1"), (1, c_str "DP-1")])).state.matched_ctx = some 1 := by
  decide

/-! ## Dispatcher -/

theorem handle_global_state (w : World) (name : Nat) (interface : List Nat) (version : Nat)
    (ok : Bool) :
    (handle_global w name interface version ok).state.failed = w.state.failed ∧
    (handle_global w name interface version ok).state.running = w.state.running := by
  simp only [handle_global]
  split_ifs <;> exact ⟨rfl, rfl⟩

theorem output_handle_name_state (w : World) (data output : Nat) (name : List Nat) :
    (output_handle_name w data output name).state.failed = w.state.failed ∧
    (output_handle_name w data output name).state.running = w.state.running := by
  unfold output_handle_name
  split
  · exact ⟨rfl, rfl⟩
  · split_ifs <;> exact ⟨rfl, rfl⟩

theorem output_handle_done_state (w : World) (data output : Nat) :
    (output_handle_done w data output).state = w.state := by
  unfold output_handle_done
  split
  · rfl
  · split_ifs <;> rfl

/-- No handler clears `failed` and no handler sets `running`. -/
theorem dispatch_event_sticky (w : World) (e : Event) :
    (w.state.failed = true → (dispatch_event w e).state.failed = true) ∧
    (w.state.running = false → (dispatch_event w e).state.running = false) := by
  cases e with
  | global name interface version ok =>
    have h := handle_global_state w name interface version ok
    simp only [dispatch_event, h.1, h.2]
    exact ⟨id, id⟩
  | global_remove name =>
    simp only [dispatch_event, handle_global_remove]
    split_ifs <;> simp
  | output_geometry o => exact ⟨id, id⟩
  | output_mode o => exact ⟨id, id⟩
  | output_done o =>
    simp only [dispatch_event]
    split
    · exact ⟨id, id⟩
    · rw [output_handle_done_state]
      exact ⟨id, id⟩
  | output_scale o => exact ⟨id, id⟩
  | output_name o name =>
    simp only [dispatch_event]
    split
    · exact ⟨id, id⟩
    · rename_i data _
      have h := output_handle_name_state w data o name
      rw [h.1, h.2]
      exact ⟨id, id⟩
  | output_description o => exact ⟨id, id⟩
  | gamma_size size => exact ⟨id, id⟩
  | gamma_failed =>
    simp [dispatch_event, gamma_control_handle_failed]

theorem dispatch_pending_sticky (w : World) (evs : List Event) :
    (w.state.failed = true → (dispatch_pending w evs).state.failed = true) ∧
    (w.state.running = false → (dispatch_pending w evs).state.running = false) := by
  induction evs generalizing w with
  | nil => exact ⟨id, id⟩
  | cons e rest ih =>
    have h1 := dispatch_event_sticky w e
    have h2 := ih (dispatch_event w e)
    simp only [dispatch_pending, List.foldl_cons] at h2 ⊢
    exact ⟨fun h => h2.1 (h1.1 h), fun h => h2.2 (h1.2 h)⟩

theorem dispatch_pending_failed (w : World) (evs : List Event) (h : Event.gamma_failed ∈ evs) :
    (dispatch_pending w evs).state.failed = true ∧
    (dispatch_pending w evs).state.running = false := by
  obtain ⟨pre, post, rfl⟩ := List.append_of_mem h
  rw [dispatch_pending_append, dispatch_pending_cons]
  have hs := dispatch_pending_sticky
    (dispatch_event (dispatch_pending w pre) Event.gamma_failed) post
  exact ⟨hs.1 rfl, hs.2 rfl⟩

theorem run_nil (d : Dispatcher) : run d [] = d := rfl

theorem run_cons (d : Dispatcher) (e : EnvStep) (es : List EnvStep) :
    run d (e :: es) = run (step d e) es := rfl

theorem deliver_signal_fields (d : Dispatcher) (e : EnvStep) :
    (deliver_signal d e).pc = d.pc ∧ (deliver_signal d e).w = d.w ∧
    (deliver_signal d e).ret = d.ret ∧
    (deliver_signal d e).quit_requested = (d.quit_requested || e.signal) := by
  unfold deliver_signal handle_signal
  cases e.signal <;> simp

theorem step_exited (d : Dispatcher) (e : EnvStep) (h : d.pc = .exited) : step d e = d := by
  unfold step
  have : (deliver_signal d e).pc = .exited := by rw [(deliver_signal_fields d e).1, h]
  simp only [this]

theorem run_exited (d : Dispatcher) (es : List EnvStep) (h : d.pc = .exited) : run d es = d := by
  induction es with
  | nil => rfl
  | cons e rest ih => rw [run_cons, step_exited d e h, ih]

/-- The loop-condition check with `running` cleared or the flag set leaves
the loop with the exit status decided by `failed`. -/
theorem step_loop_cond_exit (d : Dispatcher) (e : EnvStep) (hpc : d.pc = .loop_cond)
    (h : d.w.state.running = false ∨ d.quit_requested = true ∨ e.signal = true) :
    (step d e).pc = .exited ∧
    (step d e).ret = some (if d.w.state.failed then EXIT_FAILURE else EXIT_SUCCESS) ∧
    (step d e).w = d.w := by
  unfold step
  obtain ⟨h1, h2, h3, h4⟩ := deliver_signal_fields d e
  generalize deliver_signal d e = d1 at h1 h2 h3 h4 ⊢
  rw [hpc] at h1
  have hc : ¬ (d.w.state.running = true ∧ d1.quit_requested = false) := by
    rw [h4]
    rcases h with h | h | h <;> simp [h]
  simp [h1, loop_end, h2, hc]

/-- After a dispatch step the control point is the loop condition or the
code after the loop, and the program state is the dispatched one. -/
theorem step_dispatch (d : Dispatcher) (e : EnvStep)
    (hpc : d.pc = .dispatch_queued ∨ d.pc = .dispatch_read) :
    (step d e).w = dispatch_pending d.w e.events ∧
    (((step d e).pc = .loop_cond ∧ (step d e).ret = d.ret) ∨
     ((step d e).pc = .exited ∧
      (step d e).ret = some (if (dispatch_pending d.w e.events).state.failed
        then EXIT_FAILURE else EXIT_SUCCESS))) := by
  unfold step
  obtain ⟨h1, h2, h3, h4⟩ := deliver_signal_fields d e
  generalize deliver_signal d e = d1 at h1 h2 h3 h4 ⊢
  rcases hpc with hpc | hpc
  · rw [hpc] at h1
    simp [h1, h2, h3]
  · rw [hpc] at h1
    cases hd : e.dispatch_ok <;> simp [h1, h2, h3, hd, loop_end]

theorem exits_within_exited (k : Nat) (d : Dispatcher) (h : d.pc = .exited) :
    exits_within k d := by
  intro es
  rw [run_exited d es h, h]
  exact ⟨rfl, fun _ => rfl⟩

theorem exits_within_step (k : Nat) (d : Dispatcher) (hb : Phase.blocking d.pc = false)
    (h : ∀ e, exits_within k (step d e)) : exits_within (k + 1) d := by
  intro es
  cases es with
  | nil => exact ⟨hb, fun hk => absurd hk (by simp)⟩
  | cons e rest =>
    rw [run_cons]
    exact ⟨(h e rest).1, fun hk => (h e rest).2 (by simpa using hk)⟩

theorem exits_within_mono (k1 k2 : Nat) (d : Dispatcher) (hk : k1 ≤ k2)
    (h : exits_within k1 d) : exits_within k2 d :=
  fun es => ⟨(h es).1, fun h2 => (h es).2 (le_trans hk h2)⟩

theorem checks_before_blocking_loop_cond (d : Dispatcher) (h : d.pc = .loop_cond) :
    checks_before_blocking d :=
  fun es _ => ⟨[], es, rfl, h⟩

theorem checks_before_blocking_exited (d : Dispatcher) (h : d.pc = .exited) :
    checks_before_blocking d := by
  intro es hb
  rw [run_exited d es h, h] at hb
  exact Bool.noConfusion hb

theorem checks_before_blocking_step (d : Dispatcher) (hb : Phase.blocking d.pc = false)
    (h : ∀ e, checks_before_blocking (step d e)) : checks_before_blocking d := by
  intro es hes
  cases es with
  | nil =>
    rw [run_nil, hb] at hes
    exact Bool.noConfusion hes
  | cons e rest =>
    rw [run_cons] at hes
    obtain ⟨es1, es2, h1, h2⟩ := h e rest hes
    exact ⟨e :: es1, es2, by rw [h1]; rfl, h2⟩

/-- Where each control point of the read half of an iteration leads, and what
happens to the flag. -/
theorem step_read_half (d : Dispatcher) (e : EnvStep) :
    (d.pc ≠ .exited → (step d e).quit_requested = (d.quit_requested || e.signal)) ∧
    (d.pc = .poll_in →
      (step d e).pc = .read_events ∨ (step d e).pc = .loop_cond ∨ (step d e).pc = .exited) ∧
    (d.pc = .read_events → (step d e).pc = .dispatch_read ∨ (step d e).pc = .exited) ∧
    (d.pc = .dispatch_read → (step d e).pc = .loop_cond ∨ (step d e).pc = .exited) := by
  unfold step
  obtain ⟨h1, h2, h3, h4⟩ := deliver_signal_fields d e
  generalize deliver_signal d e = d1 at h1 h2 h3 h4 ⊢
  refine ⟨?_, ?_, ?_, ?_⟩
  · intro hpc
    rw [← h4]
    cases hp : d.pc
    case exited => exact absurd hp hpc
    all_goals
      rw [hp] at h1
      simp only [h1]
      first
      | rfl
      | (split <;> rfl)
      | skip
  · intro hpc
    rw [hpc] at h1
    cases hl : e.poll <;> simp [h1, hl, loop_end]
  · intro hpc
    rw [hpc] at h1
    cases hr : e.read_ok <;> simp [h1, hr, loop_end]
  · intro hpc
    rw [hpc] at h1
    cases hd : e.dispatch_ok <;> simp [h1, hd, loop_end]

theorem exits_within_loop_cond (d : Dispatcher) (hpc : d.pc = .loop_cond)
    (h : d.w.state.running = false ∨ d.quit_requested = true) : exits_within 1 d := by
  apply exits_within_step 0 d (by rw [hpc]; rfl)
  intro e
  apply exits_within_exited
  exact (step_loop_cond_exit d e hpc (by tauto)).1

theorem exits_within_after_dispatch (d : Dispatcher) (e : EnvStep)
    (hpc : d.pc = .dispatch_queued ∨ d.pc = .dispatch_read)
    (hrun : (dispatch_pending d.w e.events).state.running = false) :
    exits_within 1 (step d e) := by
  obtain ⟨hw, hn | hn⟩ := step_dispatch d e hpc
  · exact exits_within_loop_cond _ hn.1 (Or.inl (by rw [hw]; exact hrun))
  · exact exits_within_mono 0 1 _ (by omega) (exits_within_exited 0 _ hn.1)

theorem exit_status_after_dispatch (d : Dispatcher) (e e1 : EnvStep) (es : List EnvStep)
    (hpc : d.pc = .dispatch_queued ∨ d.pc = .dispatch_read)
    (hrun : (dispatch_pending d.w e.events).state.running = false) :
    (run (step d e) (e1 :: es)).ret =
      some (if (dispatch_pending d.w e.events).state.failed then EXIT_FAILURE
        else EXIT_SUCCESS) := by
  obtain ⟨hw, hn | hn⟩ := step_dispatch d e hpc
  · have h := step_loop_cond_exit (step d e) e1 hn.1 (Or.inl (by rw [hw]; exact hrun))
    rw [run_cons, run_exited _ es h.1, h.2.1, hw]
  · rw [run_exited _ _ hn.1, hn.2]

theorem step_ret (d : Dispatcher) (e : EnvStep) (h : d.pc ≠ .exited)
    (h2 : (step d e).pc = .exited) :
    (step d e).ret =
      some (if (step d e).w.state.failed then EXIT_FAILURE else EXIT_SUCCESS) := by
  unfold step at h2 ⊢
  obtain ⟨h1, -, -, -⟩ := deliver_signal_fields d e
  generalize deliver_signal d e = d1 at h1 h2 ⊢
  cases hp : d.pc
  case exited => exact absurd hp h
  all_goals
    rw [hp] at h1
    simp only [h1] at h2 ⊢
    first
    | (split at h2 <;> first
        | exact Phase.noConfusion h2
        | (split <;> first
            | rfl
            | simp_all [loop_end]))
    | exact Phase.noConfusion h2

theorem run_ret (d : Dispatcher) (es : List EnvStep) (h : d.pc ≠ .exited)
    (h2 : (run d es).pc = .exited) :
    (run d es).ret =
      some (if (run d es).w.state.failed then EXIT_FAILURE else EXIT_SUCCESS) := by
  induction es generalizing d with
  | nil => exact absurd h2 h
  | cons e rest ih =>
    rw [run_cons] at h2 ⊢
    by_cases hs : (step d e).pc = .exited
    · rw [run_exited _ _ hs]
      exact step_ret d e h hs
    · exact ih (step d e) hs h2

theorem run_quit (d : Dispatcher) (es : List EnvStep) (h : d.quit_requested = true) :
    (run d es).quit_requested = true := by
  induction es generalizing d with
  | nil => exact h
  | cons e rest ih =>
    rw [run_cons]
    apply ih
    by_cases hp : d.pc = .exited
    · rw [step_exited d e hp]; exact h
    · rw [(step_read_half d e).1 hp, h]; rfl

theorem step_poll_in_eintr (d : Dispatcher) (e : EnvStep) (hpc : d.pc = .poll_in)
    (hp : e.poll = .eintr) :
    (step d e).pc = .loop_cond ∧ (step d e).w = d.w := by
  unfold step
  obtain ⟨h1, h2, -, -⟩ := deliver_signal_fields d e
  generalize deliver_signal d e = d1 at h1 h2 ⊢
  rw [hpc] at h1
  simp [h1, hp, h2]

theorem step_keeps_world (d : Dispatcher) (e : EnvStep)
    (hpc : d.pc = .poll_in ∨ d.pc = .read_events) : (step d e).w = d.w := by
  unfold step
  obtain ⟨h1, h2, -, -⟩ := deliver_signal_fields d e
  generalize deliver_signal d e = d1 at h1 h2 ⊢
  rcases hpc with hpc | hpc
  · rw [hpc] at h1
    cases hl : e.poll <;> simp [h1, hl, h2, loop_end]
  · rw [hpc] at h1
    cases hr : e.read_ok <;> simp [h1, hr, h2, loop_end]

/-! ## Claims on the dispatcher -/

/-- C4: gamma_control_handle_failed sets failed and clears running; when a
dispatch step of the loop (either call of dispatch_pending) delivers the
failed event, the state afterwards has failed set and running cleared, control
is at the loop condition or already past the loop, no blocking wait is
entered in any continuation, and after one more step the loop has exited with
status EXIT_FAILURE. -/
theorem session_failure_exits (d : Dispatcher) (e : EnvStep)
    (hpc : d.pc = .dispatch_queued ∨ d.pc = .dispatch_read)
    (hev : Event.gamma_failed ∈ e.events) :
    (∀ s, (gamma_control_handle_failed s).failed = true ∧
          (gamma_control_handle_failed s).running = false) ∧
    (step d e).w.state.failed = true ∧ (step d e).w.state.running = false ∧
    ((step d e).pc = .loop_cond ∨ (step d e).pc = .exited) ∧
    (∀ es, Phase.blocking (run (step d e) es).pc = false) ∧
    (∀ e1 es, (run (step d e) (e1 :: es)).pc = .exited ∧
              (run (step d e) (e1 :: es)).ret = some EXIT_FAILURE) := by
  have hf := dispatch_pending_failed d.w e.events hev
  have hsd := step_dispatch d e hpc
  have hex := exits_within_after_dispatch d e hpc hf.2
  refine ⟨fun s => ⟨rfl, rfl⟩, by rw [hsd.1]; exact hf.1, by rw [hsd.1]; exact hf.2, ?_,
    fun es => (hex es).1, ?_⟩
  · rcases hsd.2 with h | h
    · exact Or.inl h.1
    · exact Or.inr h.1
  · intro e1 es
    refine ⟨(hex (e1 :: es)).2 (by simp), ?_⟩
    rw [exit_status_after_dispatch d e e1 es hpc hf.2, hf.1]
    rfl

/-- C4 witness: the failed event dispatched after a read in the calibrated
scenario. -/
theorem session_failure_exits_witness :
    (run (step { dispatcher_start world_calibrated false with pc := .dispatch_read }
        { env_quiet with events := [Event.gamma_failed] }) [env_quiet]).pc = .exited ∧
    (run (step { dispatcher_start world_calibrated false with pc := .dispatch_read }
        { env_quiet with events := [Event.gamma_failed] }) [env_quiet]).ret =
      some EXIT_FAILURE :=
  (session_failure_exits { dispatcher_start world_calibrated false with pc := .dispatch_read }
    { env_quiet with events := [Event.gamma_failed] } (Or.inr rfl)
    (List.mem_singleton.mpr rfl)).2.2.2.2.2 env_quiet []

/-- C5 failing inputs: in the calibrated scenario with the session never
failed, the loop ended by a flush error other than EAGAIN, by a failed
write-readiness wait, by a failed read-readiness wait, by a read_events
failure or by a dispatch_pending failure exits with status EXIT_SUCCESS. -/
theorem transport_error_exit_status :
    (run (dispatcher_start world_calibrated false)
      [env_quiet, { env_quiet with flush := .error }]).pc = .exited ∧
    (run (dispatcher_start world_calibrated false)
      [env_quiet, { env_quiet with flush := .error }]).ret = some EXIT_SUCCESS ∧
    (run (dispatcher_start world_calibrated false)
      [env_quiet, { env_quiet with flush := .eagain },
       { env_quiet with poll := .error }]).ret = some EXIT_SUCCESS ∧
    (run (dispatcher_start world_calibrated false)
      [env_quiet, env_quiet, env_quiet, { env_quiet with poll := .error }]).ret =
        some EXIT_SUCCESS ∧
    (run (dispatcher_start world_calibrated false)
      [env_quiet, env_quiet, env_quiet, env_quiet,
       { env_quiet with read_ok := false }]).ret = some EXIT_SUCCESS ∧
    (run (dispatcher_start world_calibrated false)
      [env_quiet, env_quiet, env_quiet, env_quiet, env_quiet,
       { env_quiet with dispatch_ok := false }]).ret = some EXIT_SUCCESS := by
  decide

/-- C6: handle_global_remove clears running exactly when an output is
matched and the removed id is the matched output's id, and otherwise returns
the state unchanged.  With the session not failed: a loop-condition check
that finds the flag set or running cleared leaves the loop with EXIT_SUCCESS;
a read-readiness wait interrupted with the flag set goes to the loop condition
and the next step exits with EXIT_SUCCESS; a dispatch that delivers the removal
of the matched output's global clears running and the next step exits with
EXIT_SUCCESS; and every execution that leaves the loop with the session not
failed has exit status EXIT_SUCCESS. -/
theorem clean_termination_success (s : icc_gamma_state) (name : Nat) (d : Dispatcher)
    (e : EnvStep) :
    (handle_global_remove s name =
      if s.output_matched = true ∧ name = s.output_wl_name then { s with running := false }
      else s) ∧
    (s.running = true →
      ((handle_global_remove s name).running = false ↔
        (s.output_matched = true ∧ name = s.output_wl_name))) ∧
    (d.pc = .loop_cond →
      (d.quit_requested = true ∨ e.signal = true ∨ d.w.state.running = false) →
      d.w.state.failed = false →
      (step d e).pc = .exited ∧ (step d e).ret = some EXIT_SUCCESS) ∧
    (d.pc = .poll_in → e.poll = .eintr → e.signal = true → d.w.state.failed = false →
      (step d e).pc = .loop_cond ∧ (step d e).quit_requested = true ∧
      ∀ e1, (step (step d e) e1).pc = .exited ∧ (step (step d e) e1).ret = some EXIT_SUCCESS) ∧
    ((d.pc = .dispatch_queued ∨ d.pc = .dispatch_read) →
      ∀ pre post n, e.events = pre ++ Event.global_remove n :: post →
        (dispatch_pending d.w pre).state.output_matched = true →
        n = (dispatch_pending d.w pre).state.output_wl_name →
        (dispatch_pending d.w e.events).state.failed = false →
        (step d e).w.state.running = false ∧
        ∀ e1 es, (run (step d e) (e1 :: es)).pc = .exited ∧
                 (run (step d e) (e1 :: es)).ret = some EXIT_SUCCESS) ∧
    (∀ es, d.pc ≠ .exited → (run d es).pc = .exited → (run d es).w.state.failed = false →
      (run d es).ret = some EXIT_SUCCESS) := by
  have hgr : handle_global_remove s name =
      if s.output_matched = true ∧ name = s.output_wl_name then { s with running := false }
      else s := by
    unfold handle_global_remove
    by_cases h1 : s.output_matched = true <;> by_cases h2 : name = s.output_wl_name <;>
      simp [h1, h2]
  refine ⟨hgr, ?_, ?_, ?_, ?_, ?_⟩
  · intro hr
    rw [hgr]
    by_cases hc : s.output_matched = true ∧ name = s.output_wl_name
    · simp [hc]
    · rw [if_neg hc]
      simp [hr, hc]
  · intro hpc hq hf
    have h := step_loop_cond_exit d e hpc (by tauto)
    refine ⟨h.1, ?_⟩
    rw [h.2.1, hf]
    rfl
  · intro hpc hp hs hf
    have h1 := step_poll_in_eintr d e hpc hp
    have hq : (step d e).quit_requested = true := by
      rw [(step_read_half d e).1 (by rw [hpc]; exact Phase.noConfusion), hs]
      simp
    refine ⟨h1.1, hq, ?_⟩
    intro e1
    have h := step_loop_cond_exit (step d e) e1 h1.1 (Or.inr (Or.inl hq))
    refine ⟨h.1, ?_⟩
    rw [h.2.1, h1.2, hf]
    rfl
  · intro hpc pre post n hev hm hn hf
    have hrun : (dispatch_pending d.w e.events).state.running = false := by
      rw [hev, dispatch_pending_append, dispatch_pending_cons]
      apply (dispatch_pending_sticky _ post).2
      simp [dispatch_event, handle_global_remove, hm, hn]
    have hsd := step_dispatch d e hpc
    have hex := exits_within_after_dispatch d e hpc hrun
    refine ⟨by rw [hsd.1]; exact hrun, ?_⟩
    intro e1 es
    refine ⟨(hex (e1 :: es)).2 (by simp), ?_⟩
    rw [exit_status_after_dispatch d e e1 es hpc hrun, hf]
    rfl
  · intro es hpc hex hf
    rw [run_ret d es hpc hex, hf]
    rfl

/-- C6 witness: in the calibrated scenario the removal of global 40, the
matched output, dispatched after a read, ends the loop with EXIT_SUCCESS. -/
theorem clean_termination_success_witness :
    (step { dispatcher_start world_calibrated false with pc := .dispatch_read }
      { env_quiet with events := [Event.global_remove 40] }).w.state.running = false ∧
    (run (step { dispatcher_start world_calibrated false with pc := .dispatch_read }
      { env_quiet with events := [Event.global_remove 40] }) [env_quiet]).pc = .exited ∧
    (run (step { dispatcher_start world_calibrated false with pc := .dispatch_read }
      { env_quiet with events := [Event.global_remove 40] }) [env_quiet]).ret =
        some EXIT_SUCCESS := by
  have h := (clean_termination_success world_calibrated.state 40
    { dispatcher_start world_calibrated false with pc := .dispatch_read }
    { env_quiet with events := [Event.global_remove 40] }).2.2.2.2.1 (Or.inr rfl)
    [] [] 40 rfl (by decide) (by decide) (by decide)
  exact ⟨h.1, (h.2 env_quiet []).1, (h.2 env_quiet []).2⟩

/-- C10 (amended): when the read-readiness wait returns, normally or
interrupted, the loop condition is evaluated before any further blocking
wait is entered; if the flag is set by then, no blocking wait is entered
again and the loop has exited within three further steps.  (After the
write-readiness wait the flush is retried first; the flag stays set and any
later loop-condition check exits.) -/
theorem read_wait_flag_checked (d : Dispatcher) (e : EnvStep) (hpc : d.pc = .poll_in) :
    checks_before_blocking (step d e) ∧
    ((d.quit_requested = true ∨ e.signal = true) → exits_within 3 (step d e)) ∧
    (∀ (d0 : Dispatcher) (es : List EnvStep) (e1 : EnvStep), d0.quit_requested = true →
      (run d0 es).pc = .loop_cond → (step (run d0 es) e1).pc = .exited) := by
  have hcb_dr : ∀ d2 : Dispatcher, d2.pc = .dispatch_read → checks_before_blocking d2 := by
    intro d2 h2
    apply checks_before_blocking_step d2 (by rw [h2]; rfl)
    intro e2
    rcases (step_read_half d2 e2).2.2.2 h2 with h | h
    · exact checks_before_blocking_loop_cond _ h
    · exact checks_before_blocking_exited _ h
  have hcb_re : ∀ d2 : Dispatcher, d2.pc = .read_events → checks_before_blocking d2 := by
    intro d2 h2
    apply checks_before_blocking_step d2 (by rw [h2]; rfl)
    intro e2
    rcases (step_read_half d2 e2).2.2.1 h2 with h | h
    · exact hcb_dr _ h
    · exact checks_before_blocking_exited _ h
  have hne : ∀ d2 : Dispatcher, d2.pc = .dispatch_read ∨ d2.pc = .read_events ∨
      d2.pc = .poll_in → d2.pc ≠ .exited := by
    intro d2 h2 h3
    rw [h3] at h2
    rcases h2 with h | h | h <;> exact Phase.noConfusion h
  have hq_step : ∀ (d2 : Dispatcher) (e2 : EnvStep), d2.pc ≠ .exited →
      d2.quit_requested = true → (step d2 e2).quit_requested = true := by
    intro d2 e2 h2 h3
    rw [(step_read_half d2 e2).1 h2, h3]
    rfl
  have hex_dr : ∀ d2 : Dispatcher, d2.pc = .dispatch_read → d2.quit_requested = true →
      exits_within 2 d2 := by
    intro d2 h2 hq
    apply exits_within_step 1 d2 (by rw [h2]; rfl)
    intro e2
    have hq2 := hq_step d2 e2 (hne d2 (Or.inl h2)) hq
    rcases (step_read_half d2 e2).2.2.2 h2 with h | h
    · exact exits_within_loop_cond _ h (Or.inr hq2)
    · exact exits_within_exited _ _ h
  have hex_re : ∀ d2 : Dispatcher, d2.pc = .read_events → d2.quit_requested = true →
      exits_within 3 d2 := by
    intro d2 h2 hq
    apply exits_within_step 2 d2 (by rw [h2]; rfl)
    intro e2
    have hq2 := hq_step d2 e2 (hne d2 (Or.inr (Or.inl h2))) hq
    rcases (step_read_half d2 e2).2.2.1 h2 with h | h
    · exact hex_dr _ h hq2
    · exact exits_within_exited _ _ h
  refine ⟨?_, ?_, ?_⟩
  · rcases (step_read_half d e).2.1 hpc with h | h | h
    · exact hcb_re _ h
    · exact checks_before_blocking_loop_cond _ h
    · exact checks_before_blocking_exited _ h
  · intro hq
    have hq1 : (step d e).quit_requested = true := by
      rw [(step_read_half d e).1 (hne d (Or.inr (Or.inr hpc)))]
      rcases hq with h | h <;> simp [h]
    rcases (step_read_half d e).2.1 hpc with h | h | h
    · exact hex_re _ h hq1
    · exact exits_within_mono 1 3 _ (by omega) (exits_within_loop_cond _ h (Or.inr hq1))
    · exact exits_within_exited _ _ h
  · intro d0 es e1 hq hlc
    exact (step_loop_cond_exit _ e1 hlc (Or.inr (Or.inl (run_quit d0 es hq)))).1

/-- C10 witness: the read-readiness wait of the calibrated scenario
interrupted by a termination signal; three steps later the loop has exited
without blocking. -/
theorem read_wait_flag_checked_witness :
    Phase.blocking
      (run (step { dispatcher_start world_calibrated false with pc := .poll_in }
        { env_quiet with signal := true, poll := .eintr })
        [env_quiet, env_quiet, env_quiet]).pc = false ∧
    (run (step { dispatcher_start world_calibrated false with pc := .poll_in }
      { env_quiet with signal := true, poll := .eintr })
      [env_quiet, env_quiet, env_quiet]).pc = .exited := by
  have h := (read_wait_flag_checked
    { dispatcher_start world_calibrated false with pc := .poll_in }
    { env_quiet with signal := true, poll := .eintr } rfl).2.1 (Or.inr rfl)
    [env_quiet, env_quiet, env_quiet]
  exact ⟨h.1, h.2 (by decide)⟩

/-- C10 counterexample: in the calibrated scenario the flush reports EAGAIN
and the loop blocks in the write-readiness wait; a termination signal
interrupts the wait and sets the flag; the flush is retried, reports EAGAIN
again, and the loop blocks in the write-readiness wait again with the flag
set, the loop condition not having been evaluated in between.  Likewise
after a normal return of the write-readiness wait with the flag set the loop
goes on to block in the read-readiness wait. -/
theorem write_wait_blocks_again :
    ¬ checks_before_blocking
      (run (dispatcher_start world_calibrated false)
        [env_quiet, { env_quiet with flush := .eagain },
         { env_quiet with signal := true, poll := .eintr }]) ∧
    (List.map (fun es => ((run (dispatcher_start world_calibrated false) es).pc,
        (run (dispatcher_start world_calibrated false) es).quit_requested))
      [[env_quiet, { env_quiet with flush := .eagain }],
       [env_quiet, { env_quiet with flush := .eagain },
        { env_quiet with signal := true, poll := .eintr }],
       [env_quiet, { env_quiet with flush := .eagain },
        { env_quiet with signal := true, poll := .eintr },
        { env_quiet with flush := .eagain }]]) =
      [(Phase.poll_out, false), (Phase.flush, true), (Phase.poll_out, true)] ∧
    (List.map (fun es => ((run (dispatcher_start world_calibrated false) es).pc,
        (run (dispatcher_start world_calibrated false) es).quit_requested))
      [[env_quiet, { env_quiet with flush := .eagain }],
       [env_quiet, { env_quiet with flush := .eagain },
        { env_quiet with signal := true, poll := .ready }],
       [env_quiet, { env_quiet with flush := .eagain },
        { env_quiet with signal := true, poll := .ready }, env_quiet],
       [env_quiet, { env_quiet with flush := .eagain },
        { env_quiet with signal := true, poll := .ready }, env_quiet, env_quiet]]) =
      [(Phase.poll_out, false), (Phase.flush, true), (Phase.prepare_read, true),
       (Phase.poll_in, true)] := by
  refine ⟨?_, by decide, by decide⟩
  intro h
  obtain ⟨es1, es2, h1, h2⟩ := h [{ env_quiet with flush := .eagain }] (by decide)
  cases es1 with
  | nil => revert h2; decide
  | cons x xs =>
    simp only [List.cons_append, List.cons.injEq] at h1
    obtain ⟨hx, hxs⟩ := h1
    have hnil : xs = [] := (List.append_eq_nil.mp hxs.symm).1
    subst hnil
    subst hx
    revert h2
    decide

end WlrVcgt
